import Mathlib

/-!
Verification development for the fpga-tools repository.

The repository has two C source files:
  * bitmap-export.c : exports a bitmap (data plane AND mask plane) to a
    binary PBM (P4) file;
  * trellis-conf.c  : a recursive-descent parser for the Trellis textual
    configuration format, reporting parsed units through an action
    (callback) interface.

Both are shallowly embedded below.  Streams are lists of characters,
machine bytes are natural numbers reduced mod 256 where the C type forces
it, and the stateful parser is modelled by explicit state passing.  The
loops of the parser are written with an explicit fuel parameter; the
top-level entry point supplies fuel `input length + 1`, and a theorem
shows this fuel is always sufficient (each loop pass consumes at least
one character), which is exactly the termination argument of the C code.
-/

/-! ## Bitmap export (bitmap-export.c) -/

/-- Embedding of `sample_msb` from bitmap-export.c:
`return ((b * 0x80200802ULL) & 0x0884422110ULL) * 0x0101010101ULL >> 32;`
cast to `unsigned char` on return (hence the final `% 256`). -/
def sample_msb (b : Nat) : Nat :=
  ((((b * 0x80200802) &&& 0x0884422110) * 0x0101010101) >>> 32) % 256

/-- Reference per-bit byte reversal: bit k of the input becomes
bit 7 - k of the output. -/
def revByte (b : Nat) : Nat :=
  (List.range 8).foldl (fun a k => a + (b / 2 ^ k % 2) * 2 ^ (7 - k)) 0

/-- Embedding of `struct bitmap` (width, height, pitch and the two byte
planes; the planes are byte arrays, modelled as functions from index to
byte value). -/
structure bitmap where
  width : Nat
  height : Nat
  pitch : Nat
  bits : Nat → Nat
  mask : Nat → Nat

/-- One row of output data bytes of `bitmap_export`: the C inner loop
runs `x` over `0 .. width - 1` in steps of one and calls
`fputc (sample_msb (o->bits[i] & o->mask[i]), out)` with
`i = y * o->pitch + (x >> 3)` at every single `x`; the `% 256` models
the `unsigned char` loads. -/
def bitmap_row (o : bitmap) (y : Nat) : List Nat :=
  (List.range o.width).map fun x =>
    sample_msb ((o.bits (y * o.pitch + (x >>> 3)) % 256) &&&
                (o.mask (y * o.pitch + (x >>> 3)) % 256))

/-- All data bytes written by the nested loops of `bitmap_export`. -/
def bitmap_body (o : bitmap) : List Nat :=
  ((List.range o.height).map (bitmap_row o)).flatten

/-- The header bytes written by `fprintf (out, "P4\n%zu %zu\n", ...)`. -/
def bitmap_header (o : bitmap) : List Nat :=
  (("P4\n" ++ toString o.width ++ " " ++ toString o.height ++ "\n").toList).map
    Char.toNat

/-- The whole byte stream written by a successful `bitmap_export` run. -/
def bitmap_export_bytes (o : bitmap) : List Nat :=
  bitmap_header o ++ bitmap_body o

/-- A concrete bitmap: 8 pixels wide, 1 pixel high, pitch 1, both planes
holding byte 0xff at every index. -/
def bmEx : bitmap := ⟨8, 1, 1, fun _ => 255, fun _ => 255⟩

/-! ## Trellis configuration parser (trellis-conf.c) -/

/-- The whitespace set of `isspace` in the C locale, used by the
whitespace-skipping directives of `fscanf` (` %c`, `%s`, `%u`, `%x`). -/
def cIsSpace (c : Char) : Bool :=
  c == ' ' || c == '\t' || c == '\n' || c == '\r' || c == '\x0b' || c == '\x0c'

/-- Horizontal whitespace, the scanset of the `%*[ \t]` directives. -/
def isHT (c : Char) : Bool := c == ' ' || c == '\t'

/-- Consume leading whitespace, as the whitespace-skipping
`fscanf` directives do.  `next_ns` in the C source consumes exactly this
prefix and pushes the following character back. -/
def dropSpaces (s : List Char) : List Char := s.dropWhile cIsSpace

/-- One callback of the action interface of trellis-conf.h, as an event
value; the trace of events is the sequence of callback invocations. -/
inductive Event where
  | device (name : String)
  | comment (text : String)
  | sysconfig (name value : String)
  | tile (name : String)
  | arc (sink source : String)
  | word (name value : String)
  | enum (name value : String)
  | unknown (value : String)
  | bram (index : Nat)
  | data (index pos value : Nat)
  | commit
deriving DecidableEq

/-- The action interface: a deterministic implementation carries a state
of type σ (the cookie) and answers every callback with a new state and a
success flag.  This models the `struct config_action` callback table
together with the consumer-owned cookie. -/
structure Config (σ : Type) where
  act : σ → Event → σ × Bool

/-- The mutable state threaded through the readers: the remaining input
stream, the consumer cookie, the error buffer (`none` = never written),
and the trace of callbacks invoked so far, in order. -/
structure PState (σ : Type) where
  inp : List Char
  cookie : σ
  error : Option String
  trace : List Event
deriving DecidableEq

/-- Embedding of `conf_error`: writes the message into the error buffer
and returns failure.  The capacity of the buffer is declared in
trellis-conf.h, which is not part of src/; modelled from the spec: the
buffer is treated as large enough for the fixed-form messages, so
`vsnprintf` truncation is not modelled. -/
def conf_error (st : PState σ) (msg : String) : Bool × PState σ :=
  (false, { st with error := some msg })

/-- Invoke one callback: record the event in the trace, update the
cookie, and return the success flag of the callback. -/
def emit (o : Config σ) (st : PState σ) (e : Event) : Bool × PState σ :=
  ((o.act st.cookie e).2,
   { st with cookie := (o.act st.cookie e).1, trace := st.trace ++ [e] })

/-- A single quote character as a string (used by the error messages
formatted with `'%s'`). -/
def quoted (s : String) : String := "\x27" ++ s ++ "\x27"

/-- The maximal non-whitespace run at the head of the
whitespace-stripped stream: the token text the `%s` family reads. -/
def tokOf (s : List Char) : List Char :=
  (dropSpaces s).takeWhile fun c => !(cIsSpace c)

/-- Embedding of the `%ms` directive: skip whitespace, then read a
maximal nonempty run of non-whitespace characters; fails (returns
`none`) only when the stream ends before any character is read. -/
def scanTok (s : List Char) : Option (String × List Char) :=
  if tokOf s = [] then none
  else some ((tokOf s).asString, (dropSpaces s).drop (tokOf s).length)

/-- Embedding of the `%15s`-style directive with width `n`: skip
whitespace, then read at most `n` non-whitespace characters; the unread
remainder of an overlong token stays in the stream.  Callers only use it
when the stream is known nonempty after whitespace. -/
def takeTokN (n : Nat) (s : List Char) : String × List Char :=
  (((tokOf s).take n).asString, (dropSpaces s).drop ((tokOf s).take n).length)

/-- Embedding of the `%*[ \t]` directive: requires at least one space or
tab, then consumes the maximal run of spaces and tabs.  It fails without
consuming anything when the next character is not a space or tab. -/
def scanHWS : List Char → Option (List Char)
  | [] => none
  | c :: rest => if isHT c then some (rest.dropWhile isHT) else none

/-- The `"%*[ \t]%ms"` format of the readers: required horizontal
whitespace, then a token (the token scan itself skips any further
whitespace, newlines included). -/
def scanHTtok (s : List Char) : Option (String × List Char) :=
  match scanHWS s with
  | none => none
  | some s1 => scanTok s1

/-- The `"%*[ \t]%ms%*[ \t]%ms"` format of the two-field readers. -/
def scanHTtok2 (s : List Char) : Option (String × String × List Char) :=
  match scanHTtok s with
  | none => none
  | some (a, s2) =>
    match scanHTtok s2 with
    | none => none
    | some (b, s3) => some (a, b, s3)

/-- Embedding of the `%m[^\n]` directive (no whitespace skip): reads a
maximal nonempty run of non-newline characters, failing when the stream
is empty or the next character is a newline. -/
def scanLine (s : List Char) : Option (String × List Char) :=
  if (s.takeWhile fun c => c != '\n') = [] then none
  else some ((s.takeWhile fun c => c != '\n').asString,
             s.drop (s.takeWhile fun c => c != '\n').length)

/-- The `"%*[ \t]%m[^\n]"` format of the comment reader. -/
def scanHTline (s : List Char) : Option (String × List Char) :=
  match scanHWS s with
  | none => none
  | some s1 => scanLine s1

/-- Decimal value of a digit string. -/
def decVal (cs : List Char) : Nat :=
  cs.foldl (fun a c => a * 10 + (c.toNat - 48)) 0

/-- Embedding of the `%u` directive on in-range unsigned input: skip
whitespace, read a maximal nonempty run of decimal digits.  The optional
sign and out-of-range wrapping of `strtoul` are not exercised by the
grammar and are not modelled. -/
def scanU (s : List Char) : Option (Nat × List Char) :=
  if (dropSpaces s).takeWhile Char.isDigit = [] then none
  else some (decVal ((dropSpaces s).takeWhile Char.isDigit),
             (dropSpaces s).drop ((dropSpaces s).takeWhile Char.isDigit).length)

/-- The `"%*[ \t]%u"` format of the bram index. -/
def scanHTu (s : List Char) : Option (Nat × List Char) :=
  match scanHWS s with
  | none => none
  | some s1 => scanU s1

/-- Hexadecimal digit test of the `%x` directive. -/
def isHexDig (c : Char) : Bool :=
  c.isDigit || ('a' ≤ c && c ≤ 'f') || ('A' ≤ c && c ≤ 'F')

/-- Value of one hexadecimal digit. -/
def hexDigVal (c : Char) : Nat :=
  if c.isDigit then c.toNat - 48
  else if 'a' ≤ c && c ≤ 'f' then c.toNat - 87
  else c.toNat - 55

/-- Hexadecimal value of a digit string. -/
def hexVal (cs : List Char) : Nat :=
  cs.foldl (fun a c => a * 16 + hexDigVal c) 0

/-- Embedding of the `%x` directive on plain hex input: skip whitespace,
read a maximal nonempty run of hexadecimal digits (the optional sign and
`0x` prefix of `strtoul` are not exercised by the grammar). -/
def scanHex (s : List Char) : Option (Nat × List Char) :=
  if (dropSpaces s).takeWhile isHexDig = [] then none
  else some (hexVal ((dropSpaces s).takeWhile isHexDig),
             (dropSpaces s).drop ((dropSpaces s).takeWhile isHexDig).length)

/-- One pass of the comment-skipping loop of `next_entry`: while the
next non-space character is `#`, consume the whole comment line
(`fscanf (in, "#%*[^\n]")` leaves the newline, eaten by the next
whitespace skip).  The fuel is an iteration bound; `skipComments`
supplies the input length, which always suffices since every pass
consumes at least the `#` character. -/
def skipComments_go : Nat → List Char → List Char
  | 0, s => dropSpaces s
  | n + 1, s =>
    if (dropSpaces s).head? = some '#' then
      skipComments_go n (((dropSpaces s).drop 1).dropWhile fun c => c != '\n')
    else dropSpaces s

/-- Embedding of `next_entry`: skip whitespace and whole `#` comment
lines; afterwards the stream is empty (EOF) or starts with the first
character of the next verb. -/
def skipComments (s : List Char) : List Char := skipComments_go s.length s

/-! ### Leaf readers.  Each extracts its required fields with a strict
count check, writes a descriptive error and fails when a field is
missing, and otherwise invokes the matching callback and returns the
result of that callback. -/

/-- Embedding of `read_device`: `fscanf (in, "%*[ \t]%ms", &name)`,
error `device name required`, callback `on_device`. -/
def read_device (o : Config σ) (st : PState σ) : Bool × PState σ :=
  match scanHTtok st.inp with
  | none => conf_error st "device name required"
  | some (name, rest) => emit o { st with inp := rest } (Event.device name)

/-- Embedding of `read_comment`: `fscanf (in, "%*[ \t]%m[^\n]", &value)`,
error `empty comment`, callback `on_comment`. -/
def read_comment (o : Config σ) (st : PState σ) : Bool × PState σ :=
  match scanHTline st.inp with
  | none => conf_error st "empty comment"
  | some (value, rest) => emit o { st with inp := rest } (Event.comment value)

/-- Embedding of `read_sysconfig`: two fields, error
`sysconfig requres name and value` (spelled exactly as in the source),
callback `on_sysconfig`. -/
def read_sysconfig (o : Config σ) (st : PState σ) : Bool × PState σ :=
  match scanHTtok2 st.inp with
  | none => conf_error st "sysconfig requres name and value"
  | some (name, value, rest) =>
      emit o { st with inp := rest } (Event.sysconfig name value)

/-- Embedding of `read_arc`: two fields, error
`arc requires sink and source`, callback `on_arc`. -/
def read_arc (o : Config σ) (st : PState σ) : Bool × PState σ :=
  match scanHTtok2 st.inp with
  | none => conf_error st "arc requires sink and source"
  | some (sink, source, rest) =>
      emit o { st with inp := rest } (Event.arc sink source)

/-- Embedding of `read_word`: two fields, error
`word requires name and value`, callback `on_word`. -/
def read_word (o : Config σ) (st : PState σ) : Bool × PState σ :=
  match scanHTtok2 st.inp with
  | none => conf_error st "word requires name and value"
  | some (name, value, rest) =>
      emit o { st with inp := rest } (Event.word name value)

/-- Embedding of `read_enum`: two fields, error
`enum requires name and value`, callback `on_enum`. -/
def read_enum (o : Config σ) (st : PState σ) : Bool × PState σ :=
  match scanHTtok2 st.inp with
  | none => conf_error st "enum requires name and value"
  | some (name, value, rest) =>
      emit o { st with inp := rest } (Event.enum name value)

/-- Embedding of `read_unknown`: one field, error
`unknown requires value`, callback `on_unknown`. -/
def read_unknown (o : Config σ) (st : PState σ) : Bool × PState σ :=
  match scanHTtok st.inp with
  | none => conf_error st "unknown requires value"
  | some (value, rest) => emit o { st with inp := rest } (Event.unknown value)

/-! ### Composite readers.  The loops of the C code are written with an
explicit fuel; the top level passes `input length + 1`, which is proved
sufficient below. -/

/-- The keyword dispatch of the tile-body loop of `read_tile_conf`
(the chain of `match (type, ...) ? ... :` conditionals). -/
def tile_dispatch (o : Config σ) (ty : String) (st : PState σ) :
    Bool × PState σ :=
  if ty = "arc:" then read_arc o st
  else if ty = "word:" then read_word o st
  else if ty = "enum:" then read_enum o st
  else if ty = "unknown:" then read_unknown o st
  else conf_error st ("unknown tile record type " ++ quoted ty)

/-- Embedding of the loop of `read_tile_conf`:
`while (ok && next_record (in) && fscanf (in, "%15s", type) == 1) ...`
followed by `return ok ? on_commit : 0`.  The block ends (with a commit)
when the next non-space character is `.` or the stream ends; a failing
record or an unknown keyword stops without a commit. -/
def tile_conf_loop : Nat → Config σ → PState σ → Option (Bool × PState σ)
  | 0, _, _ => none
  | fuel + 1, o, st =>
    match dropSpaces st.inp with
    | [] => some (emit o { st with inp := [] } Event.commit)
    | c :: cs =>
      if c = '.' then some (emit o { st with inp := c :: cs } Event.commit)
      else
        match tile_dispatch o (takeTokN 15 (c :: cs)).1
            { st with inp := (takeTokN 15 (c :: cs)).2 } with
        | (true, st2) => tile_conf_loop fuel o st2
        | (false, st2) => some (false, st2)

/-- Embedding of `read_tile`: one tile name (error `tile name required`),
callback `on_tile`, then the tile body. -/
def read_tile (fuel : Nat) (o : Config σ) (st : PState σ) :
    Option (Bool × PState σ) :=
  match scanHTtok st.inp with
  | none => some (conf_error st "tile name required")
  | some (name, rest) =>
    match emit o { st with inp := rest } (Event.tile name) with
    | (true, st2) => tile_conf_loop fuel o st2
    | (false, st2) => some (false, st2)

/-- Embedding of the greedy name loop of `read_tile_group`:
`while (ok && fscanf (in, "%*[ \t]%ms", &name) == 1) ok = on_tile (...)`.
The loop continues exactly while the character directly after the
previous name is a space or tab (the `%*[ \t]` directive); the name
itself is then read after skipping arbitrary whitespace. -/
def tg_loop : Nat → Config σ → PState σ → Option (Bool × PState σ)
  | 0, _, _ => none
  | fuel + 1, o, st =>
    match scanHTtok st.inp with
    | none => some (true, st)
    | some (name, rest) =>
      match emit o { st with inp := rest } (Event.tile name) with
      | (true, st2) => tg_loop fuel o st2
      | (false, st2) => some (false, st2)

/-- Embedding of `read_tile_group`: one mandatory tile name, then the
greedy name loop, then the shared tile body (a single commit for the
whole group). -/
def read_tile_group (fuel : Nat) (o : Config σ) (st : PState σ) :
    Option (Bool × PState σ) :=
  match scanHTtok st.inp with
  | none => some (conf_error st "tile name required")
  | some (name, rest) =>
    match emit o { st with inp := rest } (Event.tile name) with
    | (false, st2) => some (false, st2)
    | (true, st2) =>
      match tg_loop fuel o st2 with
      | none => none
      | some (true, st3) => tile_conf_loop fuel o st3
      | some (false, st3) => some (false, st3)

/-- Embedding of the data loop of `read_bram`:
`for (i = 0; ok && next_record (in); ++i)` reading one `%x` value per
pass (error `hex bram value required` on a non-hex record), emitting
`on_data (index, i, value)`, and a single `on_commit` at the block
boundary. -/
def bram_loop : Nat → Config σ → Nat → Nat → PState σ →
    Option (Bool × PState σ)
  | 0, _, _, _, _ => none
  | fuel + 1, o, index, i, st =>
    match dropSpaces st.inp with
    | [] => some (emit o { st with inp := [] } Event.commit)
    | c :: cs =>
      if c = '.' then some (emit o { st with inp := c :: cs } Event.commit)
      else
        match scanHex (c :: cs) with
        | none => some (conf_error { st with inp := c :: cs }
                          "hex bram value required")
        | some (v, rest) =>
          match emit o { st with inp := rest } (Event.data index i v) with
          | (true, st2) => bram_loop fuel o index (i + 1) st2
          | (false, st2) => some (false, st2)

/-- Embedding of `read_bram`: the block index (error
`bram index required`), callback `on_bram`, then the data loop. -/
def read_bram (fuel : Nat) (o : Config σ) (st : PState σ) :
    Option (Bool × PState σ) :=
  match scanHTu st.inp with
  | none => some (conf_error st "bram index required")
  | some (index, rest) =>
    match emit o { st with inp := rest } (Event.bram index) with
    | (true, st2) => bram_loop fuel o index 0 st2
    | (false, st2) => some (false, st2)

/-- The verb dispatch of `read_conf` (the chain of
`match (verb, ...) ? ... :` conditionals, in source order); an
unrecognized verb is the error `unknown verb '<token>'`. -/
def dispatch (fuel : Nat) (o : Config σ) (verb : String) (st : PState σ) :
    Option (Bool × PState σ) :=
  if verb = ".device" then some (read_device o st)
  else if verb = ".comment" then some (read_comment o st)
  else if verb = ".sysconfig" then some (read_sysconfig o st)
  else if verb = ".tile" then read_tile fuel o st
  else if verb = ".tile_group" then read_tile_group fuel o st
  else if verb = ".bram_init" then read_bram fuel o st
  else some (conf_error st ("unknown verb " ++ quoted verb))

/-- Embedding of the loop of `read_conf`:
`while (ok && next_entry (in) && fscanf (in, "%15s", verb) == 1) ...`;
after the loop the C code returns `ok` (the `ferror` branch concerns
stream I/O faults, which the pure stream model does not have). -/
def read_conf_loop : Nat → Config σ → PState σ → Option (Bool × PState σ)
  | 0, _, _ => none
  | fuel + 1, o, st =>
    match skipComments st.inp with
    | [] => some (true, { st with inp := [] })
    | c :: cs =>
      match dispatch fuel o (takeTokN 15 (c :: cs)).1
          { st with inp := (takeTokN 15 (c :: cs)).2 } with
      | none => none
      | some (true, st2) => read_conf_loop fuel o st2
      | some (false, st2) => some (false, st2)

/-- Embedding of `read_conf`, the top-level driver.  The fuel
`input length + 1` bounds every loop of the parser, since each loop pass
consumes at least one character of input (proved below). -/
def read_conf (o : Config σ) (st : PState σ) : Option (Bool × PState σ) :=
  read_conf_loop (st.inp.length + 1) o st

/-- The all-succeeding action interface over a unit cookie. -/
def oT : Config Unit := ⟨fun u _ => (u, true)⟩

/-- An action interface whose `on_device` callback reports failure and
whose other callbacks succeed. -/
def oDevFail : Config Unit :=
  ⟨fun u e => (u, match e with | Event.device _ => false | _ => true)⟩

/-- Initial parser state on a given input string: error buffer never
written, no callbacks invoked yet. -/
def mkSt (s : String) : PState Unit := ⟨s.toList, (), none, []⟩

/-! ## Progress lemmas: every scan consumes no more than the stream
holds, and every successful scan of a required nonempty token consumes
at least one character.  These drive both the termination theorem and
the fuel-sufficiency of the loop embeddings. -/

theorem dropWhileLen (p : Char → Bool) :
    ∀ s : List Char, (s.dropWhile p).length ≤ s.length
  | [] => Nat.le_refl 0
  | c :: cs => by
    rw [List.dropWhile_cons]
    split
    · exact Nat.le_succ_of_le (dropWhileLen p cs)
    · exact Nat.le_refl _

theorem takeWhileLen (p : Char → Bool) :
    ∀ s : List Char, (s.takeWhile p).length ≤ s.length
  | [] => Nat.le_refl 0
  | c :: cs => by
    rw [List.takeWhile_cons]
    split
    · simpa using takeWhileLen p cs
    · simp

theorem dropWhileHead (p : Char → Bool) :
    ∀ (s : List Char) (c : Char) (cs : List Char),
      s.dropWhile p = c :: cs → p c = false
  | [], c, cs, h => by simp [List.dropWhile] at h
  | a :: as, c, cs, h => by
    rw [List.dropWhile_cons] at h
    split at h
    · exact dropWhileHead p as c cs h
    · cases h
      simp_all

theorem dropSpacesLen (s : List Char) : (dropSpaces s).length ≤ s.length :=
  dropWhileLen cIsSpace s

theorem tokOfLen (s : List Char) : (tokOf s).length ≤ (dropSpaces s).length :=
  takeWhileLen _ (dropSpaces s)

theorem scanTok_lt (s : List Char) (a : String) (rest : List Char)
    (h : scanTok s = some (a, rest)) : rest.length < s.length := by
  unfold scanTok at h
  split at h
  · exact absurd h (by simp)
  · rename_i hne
    cases h
    have h1 : (dropSpaces s).length ≤ s.length := dropSpacesLen s
    have h2 : 0 < (tokOf s).length := List.length_pos.mpr hne
    have h3 := List.length_drop (tokOf s).length (dropSpaces s)
    have h4 := tokOfLen s
    have h5 : 0 < (dropSpaces s).length := by
      unfold tokOf at h2
      have := takeWhileLen (fun c => !(cIsSpace c)) (dropSpaces s)
      omega
    omega

theorem scanHWS_lt (s s1 : List Char) (h : scanHWS s = some s1) :
    s1.length < s.length := by
  match s with
  | [] => simp [scanHWS] at h
  | c :: cs =>
    simp only [scanHWS] at h
    split at h
    · cases h
      exact Nat.lt_succ_of_le (dropWhileLen isHT cs)
    · simp at h

theorem scanHTtok_lt (s : List Char) (a : String) (rest : List Char)
    (h : scanHTtok s = some (a, rest)) : rest.length < s.length := by
  unfold scanHTtok at h
  split at h
  · simp at h
  · rename_i s1 h1
    exact Nat.lt_trans (scanTok_lt s1 a rest h) (scanHWS_lt s s1 h1)

theorem scanHTtok2_lt (s : List Char) (a b : String) (rest : List Char)
    (h : scanHTtok2 s = some (a, b, rest)) : rest.length < s.length := by
  unfold scanHTtok2 at h
  split at h
  · simp at h
  · rename_i a1 s1 h1
    split at h
    · simp at h
    · rename_i b1 s2 h2
      simp only [Option.some.injEq, Prod.mk.injEq] at h
      obtain ⟨rfl, rfl, rfl⟩ := h
      exact Nat.lt_trans (scanHTtok_lt s1 _ _ h2) (scanHTtok_lt s _ s1 h1)

theorem scanLine_le (s : List Char) (a : String) (rest : List Char)
    (h : scanLine s = some (a, rest)) : rest.length ≤ s.length := by
  unfold scanLine at h
  split at h
  · exact absurd h (by simp)
  · cases h
    rw [List.length_drop]
    omega

theorem scanHTline_lt (s : List Char) (a : String) (rest : List Char)
    (h : scanHTline s = some (a, rest)) : rest.length < s.length := by
  unfold scanHTline at h
  split at h
  · simp at h
  · rename_i s1 h1
    exact Nat.lt_of_le_of_lt (scanLine_le s1 a rest h) (scanHWS_lt s s1 h1)

theorem scanU_lt (s : List Char) (v : Nat) (rest : List Char)
    (h : scanU s = some (v, rest)) : rest.length < s.length := by
  unfold scanU at h
  split at h
  · exact absurd h (by simp)
  · rename_i hne
    cases h
    have h1 : (dropSpaces s).length ≤ s.length := dropSpacesLen s
    have h2 : 0 < ((dropSpaces s).takeWhile Char.isDigit).length :=
      List.length_pos.mpr hne
    have h3 := List.length_drop
      ((dropSpaces s).takeWhile Char.isDigit).length (dropSpaces s)
    have h4 := takeWhileLen Char.isDigit (dropSpaces s)
    omega

theorem scanHTu_lt (s : List Char) (v : Nat) (rest : List Char)
    (h : scanHTu s = some (v, rest)) : rest.length < s.length := by
  unfold scanHTu at h
  split at h
  · simp at h
  · rename_i s1 h1
    exact Nat.lt_trans (scanU_lt s1 v rest h) (scanHWS_lt s s1 h1)

theorem scanHex_lt (s : List Char) (v : Nat) (rest : List Char)
    (h : scanHex s = some (v, rest)) : rest.length < s.length := by
  unfold scanHex at h
  split at h
  · exact absurd h (by simp)
  · rename_i hne
    cases h
    have h1 : (dropSpaces s).length ≤ s.length := dropSpacesLen s
    have h2 : 0 < ((dropSpaces s).takeWhile isHexDig).length :=
      List.length_pos.mpr hne
    have h3 := List.length_drop
      ((dropSpaces s).takeWhile isHexDig).length (dropSpaces s)
    have h4 := takeWhileLen isHexDig (dropSpaces s)
    omega

theorem takeTokN_le (n : Nat) (s : List Char) :
    (takeTokN n s).2.length ≤ s.length := by
  unfold takeTokN
  simp only [List.length_drop]
  have := dropSpacesLen s
  omega

theorem takeTokN_lt (n : Nat) (hn : 0 < n) (s : List Char) (c : Char)
    (cs : List Char) (h : dropSpaces s = c :: cs) :
    (takeTokN n s).2.length < s.length := by
  unfold takeTokN
  simp only [List.length_drop]
  have h1 : (dropSpaces s).length ≤ s.length := dropSpacesLen s
  have hc : cIsSpace c = false := dropWhileHead cIsSpace s c cs h
  have h2 : 0 < ((tokOf s).take n).length := by
    unfold tokOf
    rw [h, List.takeWhile_cons]
    simp [hc, hn]
  have h5 : 0 < (dropSpaces s).length := by rw [h]; simp
  omega

theorem skipComments_go_len :
    ∀ n s, (skipComments_go n s : List Char).length ≤ s.length
  | 0, s => dropSpacesLen s
  | n + 1, s => by
    have h3 : (dropSpaces s).length ≤ s.length := dropSpacesLen s
    unfold skipComments_go
    split
    · rename_i hh
      have h1 := skipComments_go_len n
        (((dropSpaces s).drop 1).dropWhile fun c => c != '\n')
      have h2 := dropWhileLen (fun c => c != '\n') ((dropSpaces s).drop 1)
      have h4 : 1 ≤ (dropSpaces s).length := by
        cases hd : dropSpaces s
        · rw [hd] at hh
          simp at hh
        · simp [hd]
      have h5 := List.length_drop 1 (dropSpaces s)
      omega
    · omega

theorem skipCommentsLen (s : List Char) :
    (skipComments s).length ≤ s.length := skipComments_go_len s.length s

/-! ## State lemmas for the leaf readers: none grows the input stream,
and a reader that reports success leaves the error buffer untouched
(only `conf_error` writes it, and `conf_error` always reports
failure). -/

theorem emit_inp (o : Config σ) (st : PState σ) (e : Event) :
    (emit o st e).2.inp = st.inp := rfl

theorem emit_err (o : Config σ) (st : PState σ) (e : Event) :
    (emit o st e).2.error = st.error := rfl

theorem conf_error_fst (st : PState σ) (msg : String) :
    (conf_error st msg).1 = false := rfl

theorem read_device_inp (o : Config σ) (st : PState σ) :
    (read_device o st).2.inp.length ≤ st.inp.length := by
  unfold read_device
  split
  · exact Nat.le_refl _
  · rename_i name rest h
    exact Nat.le_of_lt (scanHTtok_lt st.inp name rest h)

theorem read_device_err (o : Config σ) (st : PState σ) :
    (read_device o st).1 = true → (read_device o st).2.error = st.error := by
  unfold read_device
  split
  · simp [conf_error]
  · simp [emit]

theorem read_comment_inp (o : Config σ) (st : PState σ) :
    (read_comment o st).2.inp.length ≤ st.inp.length := by
  unfold read_comment
  split
  · exact Nat.le_refl _
  · rename_i value rest h
    exact Nat.le_of_lt (scanHTline_lt st.inp value rest h)

theorem read_comment_err (o : Config σ) (st : PState σ) :
    (read_comment o st).1 = true → (read_comment o st).2.error = st.error := by
  unfold read_comment
  split
  · simp [conf_error]
  · simp [emit]

theorem read_sysconfig_inp (o : Config σ) (st : PState σ) :
    (read_sysconfig o st).2.inp.length ≤ st.inp.length := by
  unfold read_sysconfig
  split
  · exact Nat.le_refl _
  · rename_i name value rest h
    exact Nat.le_of_lt (scanHTtok2_lt st.inp name value rest h)

theorem read_sysconfig_err (o : Config σ) (st : PState σ) :
    (read_sysconfig o st).1 = true →
      (read_sysconfig o st).2.error = st.error := by
  unfold read_sysconfig
  split
  · simp [conf_error]
  · simp [emit]

theorem read_arc_inp (o : Config σ) (st : PState σ) :
    (read_arc o st).2.inp.length ≤ st.inp.length := by
  unfold read_arc
  split
  · exact Nat.le_refl _
  · rename_i sink source rest h
    exact Nat.le_of_lt (scanHTtok2_lt st.inp sink source rest h)

theorem read_arc_err (o : Config σ) (st : PState σ) :
    (read_arc o st).1 = true → (read_arc o st).2.error = st.error := by
  unfold read_arc
  split
  · simp [conf_error]
  · simp [emit]

theorem read_word_inp (o : Config σ) (st : PState σ) :
    (read_word o st).2.inp.length ≤ st.inp.length := by
  unfold read_word
  split
  · exact Nat.le_refl _
  · rename_i name value rest h
    exact Nat.le_of_lt (scanHTtok2_lt st.inp name value rest h)

theorem read_word_err (o : Config σ) (st : PState σ) :
    (read_word o st).1 = true → (read_word o st).2.error = st.error := by
  unfold read_word
  split
  · simp [conf_error]
  · simp [emit]

theorem read_enum_inp (o : Config σ) (st : PState σ) :
    (read_enum o st).2.inp.length ≤ st.inp.length := by
  unfold read_enum
  split
  · exact Nat.le_refl _
  · rename_i name value rest h
    exact Nat.le_of_lt (scanHTtok2_lt st.inp name value rest h)

theorem read_enum_err (o : Config σ) (st : PState σ) :
    (read_enum o st).1 = true → (read_enum o st).2.error = st.error := by
  unfold read_enum
  split
  · simp [conf_error]
  · simp [emit]

theorem read_unknown_inp (o : Config σ) (st : PState σ) :
    (read_unknown o st).2.inp.length ≤ st.inp.length := by
  unfold read_unknown
  split
  · exact Nat.le_refl _
  · rename_i value rest h
    exact Nat.le_of_lt (scanHTtok_lt st.inp value rest h)

theorem read_unknown_err (o : Config σ) (st : PState σ) :
    (read_unknown o st).1 = true → (read_unknown o st).2.error = st.error := by
  unfold read_unknown
  split
  · simp [conf_error]
  · simp [emit]

theorem tile_dispatch_inp (o : Config σ) (ty : String) (st : PState σ) :
    (tile_dispatch o ty st).2.inp.length ≤ st.inp.length := by
  unfold tile_dispatch
  split_ifs
  · exact read_arc_inp o st
  · exact read_word_inp o st
  · exact read_enum_inp o st
  · exact read_unknown_inp o st
  · exact Nat.le_refl _

theorem tile_dispatch_err (o : Config σ) (ty : String) (st : PState σ) :
    (tile_dispatch o ty st).1 = true →
      (tile_dispatch o ty st).2.error = st.error := by
  unfold tile_dispatch
  split_ifs
  · exact read_arc_err o st
  · exact read_word_err o st
  · exact read_enum_err o st
  · exact read_unknown_err o st
  · simp [conf_error]

/-! ## Loop lemmas.  For every loop of the parser: the result stream is
no longer than the input stream, a successful pass leaves the error
buffer untouched, and fuel exceeding the input length never runs out
(each pass consumes at least one character).  Together these give the
termination of `read_conf` and the error-buffer invariant. -/

theorem skipComments_go_head :
    ∀ (n : Nat) (s : List Char) (c : Char) (cs : List Char),
      skipComments_go n s = c :: cs → cIsSpace c = false
  | 0, s, c, cs, h => dropWhileHead cIsSpace s c cs h
  | n + 1, s, c, cs, h => by
    unfold skipComments_go at h
    split at h
    · exact skipComments_go_head n _ c cs h
    · exact dropWhileHead cIsSpace s c cs h

theorem skipCommentsHead (s : List Char) (c : Char) (cs : List Char)
    (h : skipComments s = c :: cs) : cIsSpace c = false :=
  skipComments_go_head s.length s c cs h

theorem dropSpaces_cons_no (c : Char) (cs : List Char)
    (hc : cIsSpace c = false) : dropSpaces (c :: cs) = c :: cs := by
  unfold dropSpaces
  rw [List.dropWhile_cons]
  simp [hc]

theorem pairEq_snd {α β : Type} {p : α × β} {a : α} {b : β}
    (h : p = (a, b)) : b = p.2 := by rw [h]

theorem someEq_snd {α β : Type} {p : α × β} {a : α} {b : β}
    (h : some p = some (a, b)) : b = p.2 := pairEq_snd (Option.some.inj h)

theorem someEq_fst {α β : Type} {p : α × β} {a : α} {b : β}
    (h : some p = some (a, b)) : a = p.1 := by rw [Option.some.inj h]

theorem someMk_snd {α β : Type} {a c : α} {b d : β}
    (h : some (a, b) = some (c, d)) : d = b := by
  have h2 := congrArg Prod.snd (Option.some.inj h)
  exact h2.symm

theorem someMk_fst {α β : Type} {a c : α} {b d : β}
    (h : some (a, b) = some (c, d)) : c = a := by
  have h2 := congrArg Prod.fst (Option.some.inj h)
  exact h2.symm

theorem pairEq_fst {α β : Type} {p : α × β} {a : α} {b : β}
    (h : p = (a, b)) : a = p.1 := by rw [h]

theorem tg_loop_inp (o : Config σ) :
    ∀ (fuel : Nat) (st : PState σ) (ok : Bool) (st' : PState σ),
      tg_loop fuel o st = some (ok, st') → st'.inp.length ≤ st.inp.length
  | 0, st, ok, st', h => by simp [tg_loop] at h
  | fuel + 1, st, ok, st', h => by
    unfold tg_loop at h
    split at h
    · rw [someMk_snd h]
    · rename_i name rest hs
      have h4 := scanHTtok_lt st.inp name rest hs
      split at h
      · rename_i st2 heq
        have h2 : st2.inp = rest := by
          rw [pairEq_snd heq]
          exact emit_inp o _ _
        have h1 := tg_loop_inp o fuel st2 ok st' h
        rw [h2] at h1
        omega
      · rename_i st2 heq
        have h2 : st2.inp = rest := by
          rw [pairEq_snd heq]
          exact emit_inp o _ _
        rw [someMk_snd h, h2]
        omega

theorem tg_loop_err (o : Config σ) :
    ∀ (fuel : Nat) (st st' : PState σ),
      tg_loop fuel o st = some (true, st') → st'.error = st.error
  | 0, st, st', h => by simp [tg_loop] at h
  | fuel + 1, st, st', h => by
    unfold tg_loop at h
    split at h
    · rw [someMk_snd h]
    · rename_i name rest hs
      split at h
      · rename_i st2 heq
        have h2 : st2.error = st.error := by
          rw [pairEq_snd heq]
          exact emit_err o _ _
        rw [← h2]
        exact tg_loop_err o fuel st2 st' h
      · exact absurd (someMk_fst h) (by simp)

theorem tg_loop_some (o : Config σ) :
    ∀ (fuel : Nat) (st : PState σ), st.inp.length < fuel →
      (tg_loop fuel o st).isSome = true
  | 0, _, hf => by omega
  | fuel + 1, st, hf => by
    unfold tg_loop
    split
    · rfl
    · rename_i name rest hs
      have h4 := scanHTtok_lt st.inp name rest hs
      split
      · rename_i st2 heq
        have h2 : st2.inp = rest := by
          rw [pairEq_snd heq]
          exact emit_inp o _ _
        exact tg_loop_some o fuel st2 (by rw [h2]; omega)
      · rfl

theorem tile_conf_loop_inp (o : Config σ) :
    ∀ (fuel : Nat) (st : PState σ) (ok : Bool) (st' : PState σ),
      tile_conf_loop fuel o st = some (ok, st') →
        st'.inp.length ≤ st.inp.length
  | 0, st, ok, st', h => by simp [tile_conf_loop] at h
  | fuel + 1, st, ok, st', h => by
    have hds := dropSpacesLen st.inp
    unfold tile_conf_loop at h
    split at h
    · rename_i hd
      rw [someEq_snd h]
      show ([] : List Char).length ≤ st.inp.length
      simp
    · rename_i c cs hd
      have hcl : (c :: cs).length ≤ st.inp.length := by rw [← hd]; omega
      split at h
      · rw [someEq_snd h]
        show (c :: cs).length ≤ st.inp.length
        omega
      · have hlt : (takeTokN 15 (c :: cs)).2.length < (c :: cs).length := by
          have hc := dropWhileHead cIsSpace st.inp c cs hd
          exact takeTokN_lt 15 (by omega) (c :: cs) c cs
            (dropSpaces_cons_no c cs hc)
        split at h
        · rename_i st2 heq
          have h2 : st2.inp.length ≤ (takeTokN 15 (c :: cs)).2.length := by
            rw [pairEq_snd heq]
            exact tile_dispatch_inp o _ _
          have h1 := tile_conf_loop_inp o fuel st2 ok st' h
          omega
        · rename_i st2 heq
          have h2 : st2.inp.length ≤ (takeTokN 15 (c :: cs)).2.length := by
            rw [pairEq_snd heq]
            exact tile_dispatch_inp o _ _
          rw [someMk_snd h]
          omega

theorem tile_conf_loop_err (o : Config σ) :
    ∀ (fuel : Nat) (st st' : PState σ),
      tile_conf_loop fuel o st = some (true, st') → st'.error = st.error
  | 0, st, st', h => by simp [tile_conf_loop] at h
  | fuel + 1, st, st', h => by
    unfold tile_conf_loop at h
    split at h
    · rw [someEq_snd h]
      rfl
    · rename_i c cs hd
      split at h
      · rw [someEq_snd h]
        rfl
      · split at h
        · rename_i st2 heq
          have h3 : (tile_dispatch o (takeTokN 15 (c :: cs)).1
              { st with inp := (takeTokN 15 (c :: cs)).2 }).1 = true := by
            rw [← pairEq_fst heq]
          have h2 : st2.error = st.error := by
            rw [pairEq_snd heq]
            exact tile_dispatch_err o _ _ h3
          rw [← h2]
          exact tile_conf_loop_err o fuel st2 st' h
        · exact absurd (someMk_fst h) (by simp)

theorem tile_conf_loop_some (o : Config σ) :
    ∀ (fuel : Nat) (st : PState σ), st.inp.length < fuel →
      (tile_conf_loop fuel o st).isSome = true
  | 0, _, hf => by omega
  | fuel + 1, st, hf => by
    have hds := dropSpacesLen st.inp
    unfold tile_conf_loop
    split
    · rfl
    · rename_i c cs hd
      have hcl : (c :: cs).length ≤ st.inp.length := by rw [← hd]; omega
      split
      · rfl
      · have hlt : (takeTokN 15 (c :: cs)).2.length < (c :: cs).length := by
          have hc := dropWhileHead cIsSpace st.inp c cs hd
          exact takeTokN_lt 15 (by omega) (c :: cs) c cs
            (dropSpaces_cons_no c cs hc)
        split
        · rename_i st2 heq
          have h2 : st2.inp.length ≤ (takeTokN 15 (c :: cs)).2.length := by
            rw [pairEq_snd heq]
            exact tile_dispatch_inp o _ _
          exact tile_conf_loop_some o fuel st2 (by omega)
        · rfl

theorem bram_loop_inp (o : Config σ) :
    ∀ (fuel index i : Nat) (st : PState σ) (ok : Bool) (st' : PState σ),
      bram_loop fuel o index i st = some (ok, st') →
        st'.inp.length ≤ st.inp.length
  | 0, index, i, st, ok, st', h => by simp [bram_loop] at h
  | fuel + 1, index, i, st, ok, st', h => by
    have hds := dropSpacesLen st.inp
    unfold bram_loop at h
    split at h
    · rw [someEq_snd h]
      show ([] : List Char).length ≤ st.inp.length
      simp
    · rename_i c cs hd
      have hcl : (c :: cs).length ≤ st.inp.length := by rw [← hd]; omega
      split at h
      · rw [someEq_snd h]
        show (c :: cs).length ≤ st.inp.length
        omega
      · split at h
        · rw [someEq_snd h]
          show (c :: cs).length ≤ st.inp.length
          omega
        · rename_i v rest hx
          have h4 : rest.length < (c :: cs).length :=
            scanHex_lt (c :: cs) v rest hx
          split at h
          · rename_i st2 heq
            have h2 : st2.inp = rest := by
              rw [pairEq_snd heq]
              exact emit_inp o _ _
            have h1 := bram_loop_inp o fuel index (i + 1) st2 ok st' h
            rw [h2] at h1
            omega
          · rename_i st2 heq
            have h2 : st2.inp = rest := by
              rw [pairEq_snd heq]
              exact emit_inp o _ _
            rw [someMk_snd h, h2]
            omega

theorem bram_loop_err (o : Config σ) :
    ∀ (fuel index i : Nat) (st st' : PState σ),
      bram_loop fuel o index i st = some (true, st') → st'.error = st.error
  | 0, index, i, st, st', h => by simp [bram_loop] at h
  | fuel + 1, index, i, st, st', h => by
    unfold bram_loop at h
    split at h
    · rw [someEq_snd h]
      rfl
    · rename_i c cs hd
      split at h
      · rw [someEq_snd h]
        rfl
      · split at h
        · have hf := someEq_fst h
          rw [conf_error_fst] at hf
          exact absurd hf (by simp)
        · rename_i v rest hx
          split at h
          · rename_i st2 heq
            have h2 : st2.error = st.error := by
              rw [pairEq_snd heq]
              exact emit_err o _ _
            rw [← h2]
            exact bram_loop_err o fuel index (i + 1) st2 st' h
          · exact absurd (someMk_fst h) (by simp)

theorem bram_loop_some (o : Config σ) :
    ∀ (fuel index i : Nat) (st : PState σ), st.inp.length < fuel →
      (bram_loop fuel o index i st).isSome = true
  | 0, _, _, _, hf => by omega
  | fuel + 1, index, i, st, hf => by
    have hds := dropSpacesLen st.inp
    unfold bram_loop
    split
    · rfl
    · rename_i c cs hd
      have hcl : (c :: cs).length ≤ st.inp.length := by rw [← hd]; omega
      split
      · rfl
      · split
        · rfl
        · rename_i v rest hx
          have h4 : rest.length < (c :: cs).length :=
            scanHex_lt (c :: cs) v rest hx
          split
          · rename_i st2 heq
            have h2 : st2.inp = rest := by
              rw [pairEq_snd heq]
              exact emit_inp o _ _
            exact bram_loop_some o fuel index (i + 1) st2 (by rw [h2]; omega)
          · rfl

theorem read_tile_inp (fuel : Nat) (o : Config σ) (st : PState σ)
    (ok : Bool) (st' : PState σ)
    (h : read_tile fuel o st = some (ok, st')) :
    st'.inp.length ≤ st.inp.length := by
  unfold read_tile at h
  split at h
  · rw [someEq_snd h]
    exact Nat.le_refl _
  · rename_i name rest hs
    have h4 := scanHTtok_lt st.inp name rest hs
    split at h
    · rename_i st2 heq
      have h2 : st2.inp = rest := by
        rw [pairEq_snd heq]
        exact emit_inp o _ _
      have h1 := tile_conf_loop_inp o fuel st2 ok st' h
      rw [h2] at h1
      omega
    · rename_i st2 heq
      have h2 : st2.inp = rest := by
        rw [pairEq_snd heq]
        exact emit_inp o _ _
      rw [someMk_snd h, h2]
      omega

theorem read_tile_err (fuel : Nat) (o : Config σ) (st st' : PState σ)
    (h : read_tile fuel o st = some (true, st')) : st'.error = st.error := by
  unfold read_tile at h
  split at h
  · have hf := someEq_fst h
    rw [conf_error_fst] at hf
    exact absurd hf (by simp)
  · rename_i name rest hs
    split at h
    · rename_i st2 heq
      have h2 : st2.error = st.error := by
        rw [pairEq_snd heq]
        exact emit_err o _ _
      rw [← h2]
      exact tile_conf_loop_err o fuel st2 st' h
    · exact absurd (someMk_fst h) (by simp)

theorem read_tile_some (fuel : Nat) (o : Config σ) (st : PState σ)
    (hf : st.inp.length < fuel) : (read_tile fuel o st).isSome = true := by
  unfold read_tile
  split
  · rfl
  · rename_i name rest hs
    have h4 := scanHTtok_lt st.inp name rest hs
    split
    · rename_i st2 heq
      have h2 : st2.inp = rest := by
        rw [pairEq_snd heq]
        exact emit_inp o _ _
      exact tile_conf_loop_some o fuel st2 (by rw [h2]; omega)
    · rfl

theorem read_tile_group_inp (fuel : Nat) (o : Config σ) (st : PState σ)
    (ok : Bool) (st' : PState σ)
    (h : read_tile_group fuel o st = some (ok, st')) :
    st'.inp.length ≤ st.inp.length := by
  unfold read_tile_group at h
  split at h
  · rw [someEq_snd h]
    exact Nat.le_refl _
  · rename_i name rest hs
    have h4 := scanHTtok_lt st.inp name rest hs
    split at h
    · rename_i st2 heq
      have h2 : st2.inp = rest := by
        rw [pairEq_snd heq]
        exact emit_inp o _ _
      rw [someMk_snd h, h2]
      omega
    · rename_i st2 heq
      have h2 : st2.inp = rest := by
        rw [pairEq_snd heq]
        exact emit_inp o _ _
      split at h
      · exact absurd h (by simp)
      · rename_i st3 htg
        have h5 := tg_loop_inp o fuel st2 true st3 htg
        rw [h2] at h5
        have h1 := tile_conf_loop_inp o fuel st3 ok st' h
        omega
      · rename_i st3 htg
        have h5 := tg_loop_inp o fuel st2 false st3 htg
        rw [h2] at h5
        rw [someMk_snd h]
        omega

theorem read_tile_group_err (fuel : Nat) (o : Config σ) (st st' : PState σ)
    (h : read_tile_group fuel o st = some (true, st')) :
    st'.error = st.error := by
  unfold read_tile_group at h
  split at h
  · have hf := someEq_fst h
    rw [conf_error_fst] at hf
    exact absurd hf (by simp)
  · rename_i name rest hs
    split at h
    · exact absurd (someMk_fst h) (by simp)
    · rename_i st2 heq
      have h2 : st2.error = st.error := by
        rw [pairEq_snd heq]
        exact emit_err o _ _
      split at h
      · exact absurd h (by simp)
      · rename_i st3 htg
        have h5 := tg_loop_err o fuel st2 st3 htg
        have h1 := tile_conf_loop_err o fuel st3 st' h
        rw [h1, h5, h2]
      · exact absurd (someMk_fst h) (by simp)

theorem read_tile_group_some (fuel : Nat) (o : Config σ) (st : PState σ)
    (hf : st.inp.length < fuel) :
    (read_tile_group fuel o st).isSome = true := by
  unfold read_tile_group
  split
  · rfl
  · rename_i name rest hs
    have h4 := scanHTtok_lt st.inp name rest hs
    split
    · rfl
    · rename_i st2 heq
      have h2 : st2.inp = rest := by
        rw [pairEq_snd heq]
        exact emit_inp o _ _
      split
      · rename_i htg
        have h6 := tg_loop_some o fuel st2 (by rw [h2]; omega)
        rw [htg] at h6
        exact absurd h6 (by simp)
      · rename_i st3 htg
        have h5 := tg_loop_inp o fuel st2 true st3 htg
        rw [h2] at h5
        exact tile_conf_loop_some o fuel st3 (by omega)
      · rfl

theorem read_bram_inp (fuel : Nat) (o : Config σ) (st : PState σ)
    (ok : Bool) (st' : PState σ)
    (h : read_bram fuel o st = some (ok, st')) :
    st'.inp.length ≤ st.inp.length := by
  unfold read_bram at h
  split at h
  · rw [someEq_snd h]
    exact Nat.le_refl _
  · rename_i index rest hs
    have h4 := scanHTu_lt st.inp index rest hs
    split at h
    · rename_i st2 heq
      have h2 : st2.inp = rest := by
        rw [pairEq_snd heq]
        exact emit_inp o _ _
      have h1 := bram_loop_inp o fuel index 0 st2 ok st' h
      rw [h2] at h1
      omega
    · rename_i st2 heq
      have h2 : st2.inp = rest := by
        rw [pairEq_snd heq]
        exact emit_inp o _ _
      rw [someMk_snd h, h2]
      omega

theorem read_bram_err (fuel : Nat) (o : Config σ) (st st' : PState σ)
    (h : read_bram fuel o st = some (true, st')) : st'.error = st.error := by
  unfold read_bram at h
  split at h
  · have hf := someEq_fst h
    rw [conf_error_fst] at hf
    exact absurd hf (by simp)
  · rename_i index rest hs
    split at h
    · rename_i st2 heq
      have h2 : st2.error = st.error := by
        rw [pairEq_snd heq]
        exact emit_err o _ _
      rw [← h2]
      exact bram_loop_err o fuel index 0 st2 st' h
    · exact absurd (someMk_fst h) (by simp)

theorem read_bram_some (fuel : Nat) (o : Config σ) (st : PState σ)
    (hf : st.inp.length < fuel) : (read_bram fuel o st).isSome = true := by
  unfold read_bram
  split
  · rfl
  · rename_i index rest hs
    have h4 := scanHTu_lt st.inp index rest hs
    split
    · rename_i st2 heq
      have h2 : st2.inp = rest := by
        rw [pairEq_snd heq]
        exact emit_inp o _ _
      exact bram_loop_some o fuel index 0 st2 (by rw [h2]; omega)
    · rfl

theorem dispatch_inp (fuel : Nat) (o : Config σ) (verb : String)
    (st : PState σ) (ok : Bool) (st' : PState σ)
    (h : dispatch fuel o verb st = some (ok, st')) :
    st'.inp.length ≤ st.inp.length := by
  unfold dispatch at h
  split_ifs at h
  · rw [someEq_snd h]
    exact read_device_inp o st
  · rw [someEq_snd h]
    exact read_comment_inp o st
  · rw [someEq_snd h]
    exact read_sysconfig_inp o st
  · exact read_tile_inp fuel o st ok st' h
  · exact read_tile_group_inp fuel o st ok st' h
  · exact read_bram_inp fuel o st ok st' h
  · rw [someEq_snd h]
    exact Nat.le_refl _

theorem dispatch_err (fuel : Nat) (o : Config σ) (verb : String)
    (st st' : PState σ) (h : dispatch fuel o verb st = some (true, st')) :
    st'.error = st.error := by
  unfold dispatch at h
  split_ifs at h
  · rw [someEq_snd h]
    exact read_device_err o st (someEq_fst h).symm
  · rw [someEq_snd h]
    exact read_comment_err o st (someEq_fst h).symm
  · rw [someEq_snd h]
    exact read_sysconfig_err o st (someEq_fst h).symm
  · exact read_tile_err fuel o st st' h
  · exact read_tile_group_err fuel o st st' h
  · exact read_bram_err fuel o st st' h
  · have hf := someEq_fst h
    rw [conf_error_fst] at hf
    exact absurd hf (by simp)

theorem dispatch_some (fuel : Nat) (o : Config σ) (verb : String)
    (st : PState σ) (hf : st.inp.length < fuel) :
    (dispatch fuel o verb st).isSome = true := by
  unfold dispatch
  split_ifs
  · rfl
  · rfl
  · rfl
  · exact read_tile_some fuel o st hf
  · exact read_tile_group_some fuel o st hf
  · exact read_bram_some fuel o st hf
  · rfl

theorem read_conf_loop_err (o : Config σ) :
    ∀ (fuel : Nat) (st st' : PState σ),
      read_conf_loop fuel o st = some (true, st') → st'.error = st.error
  | 0, st, st', h => by simp [read_conf_loop] at h
  | fuel + 1, st, st', h => by
    unfold read_conf_loop at h
    split at h
    · rw [someEq_snd h]
    · rename_i c cs hd
      split at h
      · exact absurd h (by simp)
      · rename_i st2 heq
        have h3 := dispatch_err fuel o (takeTokN 15 (c :: cs)).1
          { st with inp := (takeTokN 15 (c :: cs)).2 } st2 heq
        have h1 := read_conf_loop_err o fuel st2 st' h
        rw [h1, h3]
      · exact absurd (someMk_fst h) (by simp)

theorem read_conf_loop_some (o : Config σ) :
    ∀ (fuel : Nat) (st : PState σ), st.inp.length < fuel →
      (read_conf_loop fuel o st).isSome = true
  | 0, _, hf => by omega
  | fuel + 1, st, hf => by
    unfold read_conf_loop
    split
    · rfl
    · rename_i c cs hd
      have hsc := skipCommentsLen st.inp
      have hcl : (c :: cs).length ≤ st.inp.length := by rw [← hd]; omega
      have hc := skipCommentsHead st.inp c cs hd
      have hlt : (takeTokN 15 (c :: cs)).2.length < (c :: cs).length :=
        takeTokN_lt 15 (by omega) (c :: cs) c cs (dropSpaces_cons_no c cs hc)
      split
      · rename_i heq
        have hds := dispatch_some fuel o (takeTokN 15 (c :: cs)).1
          { st with inp := (takeTokN 15 (c :: cs)).2 }
          (by show (takeTokN 15 (c :: cs)).2.length < fuel; omega)
        rw [heq] at hds
        exact absurd hds (by simp)
      · rename_i st2 heq
        have h4 := dispatch_inp fuel o (takeTokN 15 (c :: cs)).1
          { st with inp := (takeTokN 15 (c :: cs)).2 } true st2 heq
        have h5 : ({ st with inp := (takeTokN 15 (c :: cs)).2 } :
            PState σ).inp.length = (takeTokN 15 (c :: cs)).2.length := rfl
        exact read_conf_loop_some o fuel st2 (by omega)
      · rfl

set_option maxRecDepth 100000

/-- C1: the claim states that a successful export writes the header
lines `P4` and `<width> <height>` and then one output byte per 8
horizontal pixels (the AND of the data and mask bytes, bit-reversed).
The header and the bit reversal are as claimed (the last conjunct checks
`sample_msb` against the reference per-bit reversal on every byte), but
the inner loop of `bitmap_export` advances `x` by one pixel, not by
eight: on the 8-pixel-wide one-row bitmap `bmEx` it emits the same
packed byte 8 times, where the claim (and the P4 format the header
declares) requires exactly one data byte. -/
theorem C1_export_one_byte_per_pixel :
    bitmap_export_bytes bmEx = [80, 52, 10, 56, 32, 49, 10] ++
      List.replicate 8 255 ∧
    (bitmap_row bmEx 0).length = 8 ∧
    (∀ b : Fin 256, sample_msb b.val = revByte b.val) := by
  refine ⟨by decide, by decide, by decide⟩

/-- C3: on `.tile_group A B C` followed by `arc: x y` and then a new
`.`-introduced verb (here `.device D`), with every callback succeeding,
the parser emits `on_tile("A")`, `on_tile("B")`, `on_tile("C")`,
`on_arc("x","y")` and exactly one `on_commit` for the whole group — not
one commit per declared tile name — followed only by the events of the
next verb. -/
theorem C3_tile_group_single_commit :
    read_conf oT (mkSt ".tile_group A B C\narc: x y\n.device D") =
      some (true, ⟨[], (), none,
        [Event.tile "A", Event.tile "B", Event.tile "C",
         Event.arc "x" "y", Event.commit, Event.device "D"]⟩) := by
  decide

/-- C4: on `.bram_init 5` followed by the lines `0a`, `1b`, `2c` and end
of stream, with every callback succeeding, the parser emits
`on_bram(5)`, `on_data(5,0,0x0a)`, `on_data(5,1,0x1b)`,
`on_data(5,2,0x2c)` and `on_commit`, the positions forming a running
counter from 0 incremented once per value read. -/
theorem C4_bram_positions :
    read_conf oT (mkSt ".bram_init 5\n0a\n1b\n2c\n") =
      some (true, ⟨[], (), none,
        [Event.bram 5, Event.data 5 0 10, Event.data 5 1 27,
         Event.data 5 2 44, Event.commit]⟩) := by
  decide

/-- C9: the tile_group name loop consumes a further token as a tile name
exactly when the character directly after the previous name is a space
or tab (third conjunct: any other character ends the name list), and the
token itself is read after skipping arbitrary whitespace, newlines
included.  First conjunct: a name followed directly by a newline ends
the list, so `arc: x y` is parsed as a body record.  Second conjunct: a
trailing space after the name makes the greedy loop swallow the body
keyword `arc:` on the next line — and then `x` and `y` as well — as tile
names. -/
theorem C9_tile_group_greedy_names :
    read_conf oT (mkSt ".tile_group A\narc: x y\n.device D") =
      some (true, ⟨[], (), none,
        [Event.tile "A", Event.arc "x" "y", Event.commit,
         Event.device "D"]⟩) ∧
    read_conf oT (mkSt ".tile_group A \narc: x y\n.device D") =
      some (true, ⟨[], (), none,
        [Event.tile "A", Event.tile "arc:", Event.tile "x",
         Event.tile "y", Event.commit, Event.device "D"]⟩) ∧
    (∀ (c : Char) (rest : List Char), isHT c = false →
      scanHTtok (c :: rest) = none) := by
  refine ⟨by decide, by decide, fun c rest hc => ?_⟩
  simp [scanHTtok, scanHWS, hc]

/-- C9 witness: the general conjunct applied at the concrete character
`a` (not a space or tab), ending the name list. -/
theorem C9_tile_group_greedy_names_witness :
    scanHTtok ('a' :: 'b' :: []) = none :=
  C9_tile_group_greedy_names.2.2 'a' ('b' :: []) (by decide)

/-- C10: `#` comment lines are skipped only at the top level, before a
verb (first conjunct: they produce no callback and do not disturb the
parse).  Inside a tile body a `#` line is read as a record keyword and
fails the parse with `unknown tile record type '#'` (second conjunct),
and inside a bram_init block it fails with `hex bram value required`
(third conjunct); in both cases the block emits no commit — the trace
ends with the events emitted before the bad line. -/
theorem C10_comments_top_level_only :
    read_conf oT (mkSt "# hello\n.device D\n# end") =
      some (true, ⟨[], (), none, [Event.device "D"]⟩) ∧
    read_conf oT (mkSt ".tile T\n# c\narc: x y") =
      some (false, ⟨(" c\narc: x y").toList, (),
        some "unknown tile record type \x27#\x27", [Event.tile "T"]⟩) ∧
    read_conf oT (mkSt ".bram_init 5\n# c\n0a") =
      some (false, ⟨("# c\n0a").toList, (),
        some "hex bram value required", [Event.bram 5]⟩) := by
  refine ⟨by decide, by decide, by decide⟩

/-- C2 counterexample: the claim states the error buffer is written if
and only if `read_conf` (or a reader it invoked) returned failure, in
particular also when the failure is caused solely by a callback
returning failure.  On the input `.device x` with an action interface
whose `on_device` reports failure, `read_conf` returns failure yet the
error buffer is never written (it is still `none`): the parser adds no
message for callback-signalled failures. -/
theorem C2_callback_failure_leaves_buffer_unwritten :
    read_conf oDevFail (mkSt ".device x") =
      some (false, ⟨[], (), none, [Event.device "x"]⟩) := by
  decide

/-- C8: for every finite input stream and every action-interface
implementation, `read_conf` terminates: the fuel `input length + 1` it
supplies is always sufficient because each pass of the top-level loop,
the tile-body loop, the tile_group name loop and the bram data loop
consumes at least one character of input or exits the loop, so the
result is never the out-of-fuel marker. -/
theorem C8_read_conf_terminates (σ : Type) (o : Config σ) (st : PState σ) :
    (read_conf o st).isSome = true :=
  read_conf_loop_some o (st.inp.length + 1) st (Nat.lt_succ_self _)

/-- C2 amended: if `read_conf` reports success, the error buffer is
exactly as it was before the call — so the buffer is written only if
`read_conf` (or a reader it invoked) returned failure; the converse of
the original claim fails, since a failure caused solely by a callback
returning failure leaves the buffer unwritten (see the counterexample
theorem). -/
theorem C2_success_leaves_error_buffer (σ : Type) (o : Config σ)
    (st st' : PState σ) (h : read_conf o st = some (true, st')) :
    st'.error = st.error :=
  read_conf_loop_err o (st.inp.length + 1) st st' h

/-- C2 amended witness: the theorem applied to the successful concrete
run of `.device D` under the all-succeeding action interface. -/
theorem C2_success_leaves_error_buffer_witness :
    (⟨[], (), none, [Event.device "D"]⟩ : PState Unit).error =
      (mkSt ".device D").error :=
  C2_success_leaves_error_buffer Unit oT (mkSt ".device D")
    ⟨[], (), none, [Event.device "D"]⟩ (by decide)

/-- C5: whenever the tile-body loop reads a keyword token that is none
of `arc:`, `word:`, `enum:`, `unknown:`, the whole entry fails at once:
the loop returns failure immediately with the error buffer holding
`unknown tile record type '<token>'`, and the trace is left exactly as
it was — in particular no `on_commit` is emitted for the block. -/
theorem C5_unknown_tile_keyword (σ : Type) (o : Config σ) (st : PState σ)
    (fuel : Nat) (c : Char) (cs : List Char) (ty : String) (rest : List Char)
    (hd : dropSpaces st.inp = c :: cs) (hdot : c ≠ '.')
    (htok : takeTokN 15 (c :: cs) = (ty, rest))
    (h1 : ty ≠ "arc:") (h2 : ty ≠ "word:") (h3 : ty ≠ "enum:")
    (h4 : ty ≠ "unknown:") :
    tile_conf_loop (fuel + 1) o st =
      some (false,
        { st with
            inp := rest,
            error := some ("unknown tile record type " ++ quoted ty) }) := by
  unfold tile_conf_loop
  rw [hd]
  simp [htok, tile_dispatch, hdot, h1, h2, h3, h4, conf_error]

/-- C5 witness: the theorem applied inside a tile body starting with the
unknown keyword `bogus:`. -/
theorem C5_unknown_tile_keyword_witness :
    tile_conf_loop 1 oT (mkSt "bogus: x") =
      some (false, ⟨(" x").toList, (),
        some "unknown tile record type \x27bogus:\x27", []⟩) :=
  C5_unknown_tile_keyword Unit oT (mkSt "bogus: x") 0 'b' ("ogus: x".toList)
    "bogus:" (" x".toList) (by decide) (by decide) (by decide) (by decide)
    (by decide) (by decide) (by decide)

/-- C6: whenever the top-level loop reads a verb token that is none of
`.device`, `.comment`, `.sysconfig`, `.tile`, `.tile_group`,
`.bram_init`, `read_conf` fails immediately: the loop returns right
there (no further verbs are processed), and the error buffer holds
`unknown verb '<token>'`, naming the offending token. -/
theorem C6_unknown_verb (σ : Type) (o : Config σ) (st : PState σ)
    (fuel : Nat) (c : Char) (cs : List Char) (verb : String)
    (rest : List Char)
    (hd : skipComments st.inp = c :: cs)
    (htok : takeTokN 15 (c :: cs) = (verb, rest))
    (h1 : verb ≠ ".device") (h2 : verb ≠ ".comment")
    (h3 : verb ≠ ".sysconfig") (h4 : verb ≠ ".tile")
    (h5 : verb ≠ ".tile_group") (h6 : verb ≠ ".bram_init") :
    read_conf_loop (fuel + 1) o st =
      some (false,
        { st with
            inp := rest,
            error := some ("unknown verb " ++ quoted verb) }) := by
  unfold read_conf_loop
  rw [hd]
  simp [htok, dispatch, h1, h2, h3, h4, h5, h6, conf_error]

/-- C6 witness: the theorem applied to the unrecognized verb
`.frobnicate`, with a further valid verb behind it that is never
reached. -/
theorem C6_unknown_verb_witness :
    read_conf_loop 1 oT (mkSt ".frobnicate x\n.device D") =
      some (false, ⟨(" x\n.device D").toList, (),
        some "unknown verb \x27.frobnicate\x27", []⟩) :=
  C6_unknown_verb Unit oT (mkSt ".frobnicate x\n.device D") 0 '.'
    ("frobnicate x\n.device D".toList) ".frobnicate" (" x\n.device D".toList)
    (by decide) (by decide) (by decide) (by decide) (by decide) (by decide)
    (by decide) (by decide)

/-- C7 counterexample: the claim states every leaf reader reports a
missing field with an error of the form `<field> required` or
`<kind> requires <n> and <m>`.  The sysconfig reader, however, writes
`sysconfig requres name and value` — the word `requires` is misspelled
in the source — which differs from the claimed form (and the comment
reader writes `empty comment`, matching neither pattern). -/
theorem C7_sysconfig_message_typo :
    (read_sysconfig oT (mkSt "\n")).2.error =
      some "sysconfig requres name and value" ∧
    ("sysconfig requres name and value" : String) ≠
      "sysconfig requires name and value" := by
  refine ⟨by decide, by decide⟩

/-- C7 amended: when a leaf reader cannot extract its required fields it
returns failure, writes its fixed descriptive message (exactly as
spelled in the source, including `sysconfig requres name and value` and
`empty comment`), and invokes no callback: the state is unchanged except
for the error buffer — in particular `.device` with no following name
token makes no `on_device` call. -/
theorem C7_missing_fields (σ : Type) (o : Config σ) (st : PState σ) :
    (scanHTtok st.inp = none →
      read_device o st =
        (false, { st with error := some "device name required" })) ∧
    (scanHTline st.inp = none →
      read_comment o st =
        (false, { st with error := some "empty comment" })) ∧
    (scanHTtok2 st.inp = none →
      read_sysconfig o st =
        (false, { st with error := some "sysconfig requres name and value" })) ∧
    (scanHTtok2 st.inp = none →
      read_arc o st =
        (false, { st with error := some "arc requires sink and source" })) ∧
    (scanHTtok2 st.inp = none →
      read_word o st =
        (false, { st with error := some "word requires name and value" })) ∧
    (scanHTtok2 st.inp = none →
      read_enum o st =
        (false, { st with error := some "enum requires name and value" })) ∧
    (scanHTtok st.inp = none →
      read_unknown o st =
        (false, { st with error := some "unknown requires value" })) := by
  refine ⟨fun h => ?_, fun h => ?_, fun h => ?_, fun h => ?_, fun h => ?_,
    fun h => ?_, fun h => ?_⟩
  · unfold read_device
    rw [h]
    rfl
  · unfold read_comment
    rw [h]
    rfl
  · unfold read_sysconfig
    rw [h]
    rfl
  · unfold read_arc
    rw [h]
    rfl
  · unfold read_word
    rw [h]
    rfl
  · unfold read_enum
    rw [h]
    rfl
  · unfold read_unknown
    rw [h]
    rfl

/-- C7 amended witness: the device conjunct applied to a stream holding
only a newline after the verb, where no name can be read. -/
theorem C7_missing_fields_witness :
    read_device oT (mkSt "\n") =
      (false, ⟨("\n").toList, (), some "device name required", []⟩) :=
  (C7_missing_fields Unit oT (mkSt "\n")).1 (by decide)
